import Mathlib

/-!
Shallow embedding of `src/genetic_algorithm/core.py` (class `GeneticAlgorithm`).

Modelling conventions:
* A candidate model is a `Model`: an `id` standing for Python object identity
  (each object is constructed exactly once, so fresh ids model distinct
  objects), an opaque `payload` standing for the hyperparameter
  configuration, and an optional `fitness` slot (`none` = Python `None`).
* The external collaborators (`ModelMaker`, `ModelScorer`) and the shared
  numpy random source are modelled by an environment `Env` of opaque
  functions; `Env.rand` is the stream of raw random draws, consumed at
  explicit positions (`rIdx`), so every theorem quantifies over all
  possible random outcomes.
* `np.random.choice(a, size=k, replace=False)` is modelled by `sampleWoR`
  (draw by position, remove, repeat), which fails exactly when `k`
  exceeds the population, as numpy does; `np.random.choice(a)` (one
  element) is modelled by `chooseIdx`, which fails exactly on an empty
  input, as numpy does.
* Python exceptions (IndexError, numpy ValueError, AssertionError) are
  modelled by `Option`: `none` means the call raises.
* Python's `list.sort(key=..., reverse=True)` is a stable descending
  sort; `sortPopDesc` is a stable structural insertion sort computing the
  same (unique) stable descending ordering.
* Fractions are exact rationals `ℚ`; `int(np.floor(f * popSize))` is
  `(⌊f * popSize⌋).toNat` (`Int.toNat` agrees with Python on every value
  the engine can use: `range` of a negative int is empty, like `range 0`).
-/

namespace GeneticAlgo

/-- A candidate model: object identity, opaque hyperparameter payload,
and the mutable fitness slot (`none` until scored). -/
structure Model where
  id : Nat
  payload : Nat
  fitness : Option Int
deriving DecidableEq

instance : Inhabited Model := ⟨⟨0, 0, none⟩⟩

/-- The opaque external collaborators of the engine: the model factory's
internal randomness (`randomPayload`, `childPayload`, `mutatePayload`),
the fitness evaluator `scoreFn` (a pure function of the payload, as the
spec assumes), and the shared random stream `rand`. -/
structure Env where
  randomPayload : Nat → Nat
  childPayload : Nat → Nat → Nat → Nat
  mutatePayload : Nat → Nat
  scoreFn : Nat → Int
  rand : Nat → Nat

/-- The controller's configuration attributes as stored by
`GeneticAlgorithm.__init__`: the raw fractions plus the derived integer
counts `keepTopN`, `keepBtmN`, `makeChildN`, `mutateN`. -/
structure GA where
  popSize : Nat
  keepTopFrac : ℚ
  keepBtmFrac : ℚ
  makeChildFrac : ℚ
  mutateFrac : ℚ
  keepGraveyard : Bool
  keepTopN : Nat
  keepBtmN : Nat
  makeChildN : Nat
  mutateN : Nat

/-- `GeneticAlgorithm.__init__`: asserts
`keepTopFrac + keepBtmFrac + makeChildFrac <= 1` (AssertionError modelled
as `none`; `mutateFrac` does not participate), then derives the four
integer counts as `int(np.floor(frac * popSize))`. -/
def mkGA (popSize : Nat) (keepTopFrac keepBtmFrac makeChildFrac mutateFrac : ℚ)
    (keepGraveyard : Bool) : Option GA :=
  if keepTopFrac + keepBtmFrac + makeChildFrac ≤ 1 then
    some
      { popSize := popSize
        keepTopFrac := keepTopFrac
        keepBtmFrac := keepBtmFrac
        makeChildFrac := makeChildFrac
        mutateFrac := mutateFrac
        keepGraveyard := keepGraveyard
        keepTopN := (⌊keepTopFrac * popSize⌋).toNat
        keepBtmN := (⌊keepBtmFrac * popSize⌋).toNat
        makeChildN := (⌊makeChildFrac * popSize⌋).toNat
        mutateN := (⌊mutateFrac * popSize⌋).toNat }
  else none

/-- The controller's mutable state: `self.population`, `self.graveyard`,
`self.bestModel`, plus bookkeeping for fresh object identities (`nextId`)
and the position in the random stream (`rIdx`). -/
structure GAState where
  population : List Model
  graveyard : List Model
  bestModel : Option Model
  nextId : Nat
  rIdx : Nat
deriving DecidableEq

/-- `ModelScorer.scoreModel`: opaque pure function of the candidate. -/
def scoreModel (env : Env) (m : Model) : Int := env.scoreFn m.payload

/-- The loop body of `_scoreModelsInPop`: walks the population in order;
each model whose fitness is `None` is passed to the evaluator exactly once
and its fitness slot is filled; models already carrying a fitness are left
untouched. Returns the updated population together with the list of
candidates that were passed to the evaluator, in call order. -/
def scoreLoop (env : Env) : List Model → List Model × List Model
  | [] => ([], [])
  | m :: rest =>
    let r := scoreLoop env rest
    if m.fitness.isNone then
      ({ m with fitness := some (scoreModel env m) } :: r.1, m :: r.2)
    else
      (m :: r.1, r.2)

/-- `_scoreModelsInPop`: score every not-yet-scored model in place. -/
def scoreModelsInPop (env : Env) (st : GAState) : GAState :=
  { st with population := (scoreLoop env st.population).1 }

/-- The sort key `lambda m: m.fitness`. At every call site of the sort
the whole population has been scored, so the default for `none` is never
observed. -/
def fitKey (m : Model) : Int := m.fitness.getD 0

/-- Insert into a descending-sorted list, after any earlier element with
an equal or larger key (the placement of Python's stable sort). -/
def insertDesc (m : Model) : List Model → List Model
  | [] => [m]
  | y :: ys => if fitKey m ≤ fitKey y then y :: insertDesc m ys else m :: y :: ys

/-- `_sortPopByFitness`: `self.population.sort(key=lambda m: m.fitness,
reverse=True)` — the stable descending ordering, computed by stable
insertion sort. -/
def sortPopDesc : List Model → List Model
  | [] => []
  | x :: xs => insertDesc x (sortPopDesc xs)

/-- `np.random.choice(l, size=k, replace=False)`: draw `k` elements one at
a time by random position, each drawn element removed before the next
draw. Fails (numpy ValueError) exactly when `k` exceeds the number of
remaining elements. -/
def sampleWoR {α : Type} [Inhabited α] (rand : Nat → Nat) :
    Nat → List α → Nat → Option (List α)
  | _, _, 0 => some []
  | pos, l, k + 1 =>
    if h : 0 < l.length then
      let i := rand pos % l.length
      (sampleWoR rand (pos + 1) (l.eraseIdx i) k).map
        (fun s => l.get ⟨i, Nat.mod_lt _ h⟩ :: s)
    else none

/-- `np.random.choice(l)` for a single draw: a uniformly random position
into `l`; fails (numpy ValueError) exactly when `l` is empty. -/
def chooseIdx (r : Nat) (n : Nat) : Option Nat :=
  if n = 0 then none else some (r % n)

/-- `remainingInds = [i for i in range(len(pop)) if i not in topKeepInds]`
with `topKeepInds = range(keepTopN)`. -/
def remainingIndsFor (keepTopN len : Nat) : List Nat :=
  (List.range len).filter (fun i => decide (i ∉ List.range keepTopN))

/-- The selection logic of `_killUnfit`, applied to the sorted population:
`topKeepMods = [pop[i] for i in range(keepTopN)]` (IndexError — `none` —
if `keepTopN > len(pop)`), `btmKeepInds` sampled without replacement from
the complement of the top indices, the always-true disjointness assert,
`keepMods = topKeepMods + btmKeepMods` and
`unfitMods = [m for m in pop if m not in keepMods]`.
Returns `(keepMods, unfitMods, next random position)`. -/
def cullSelect (env : Env) (ga : GA) (rIdx : Nat) (pop : List Model) :
    Option (List Model × List Model × Nat) :=
  if ga.keepTopN ≤ pop.length then
    let topKeepMods := pop.take ga.keepTopN
    match sampleWoR env.rand rIdx (remainingIndsFor ga.keepTopN pop.length)
        ga.keepBtmN with
    | none => none
    | some btmKeepInds =>
      if (List.range ga.keepTopN).inter btmKeepInds = [] then
        let btmKeepMods := btmKeepInds.map (fun i => pop.getD i default)
        let keepMods := topKeepMods ++ btmKeepMods
        let unfitMods := pop.filter (fun m => decide (m ∉ keepMods))
        some (keepMods, unfitMods, rIdx + ga.keepBtmN)
      else none
  else none

/-- `_killUnfit`: sort descending, select survivors, replace the
population with `keepMods`, and append `unfitMods` to the graveyard when
`keepGraveyard` is enabled. -/
def killUnfit (env : Env) (ga : GA) (st : GAState) : Option GAState :=
  let sorted := sortPopDesc st.population
  match cullSelect env ga st.rIdx sorted with
  | none => none
  | some (keepMods, unfitMods, rIdx2) =>
    some
      { st with
        population := keepMods
        graveyard :=
          if ga.keepGraveyard then st.graveyard ++ unfitMods else st.graveyard
        rIdx := rIdx2 }

/-- `ModelMaker.makeRandomModel`: a fresh object with opaque payload and
unset fitness. -/
def makeRandomModel (env : Env) (nid : Nat) : Model :=
  ⟨nid, env.randomPayload nid, none⟩

/-- `ModelMaker.makeChildModel(mother, father)`: a fresh object whose
payload opaquely combines the parents' payloads; fitness unset. -/
def makeChildModel (env : Env) (mother father : Model) (nid : Nat) : Model :=
  ⟨nid, env.childPayload mother.payload father.payload nid, none⟩

/-- `ModelMaker.mutateModel`: in-place payload change; identity and the
fitness slot are untouched. -/
def mutateModel (env : Env) (m : Model) : Model :=
  { m with payload := env.mutatePayload m.payload }

/-- The `for i in range(self.makeChildN)` loop of `_makeChildren`: each
round draws `mother, father = np.random.choice(self.population, size=2,
replace=False)` (ValueError — `none` — when the population has fewer than
2 members) and makes one child. Returns the children in production order
together with the next random position and the next fresh id. -/
def breedLoop (env : Env) (pop : List Model) :
    Nat → Nat → Nat → Option (List Model × Nat × Nat)
  | 0, rIdx, nid => some ([], rIdx, nid)
  | n + 1, rIdx, nid =>
    match sampleWoR env.rand rIdx pop 2 with
    | none => none
    | some (mother :: father :: _) =>
      match breedLoop env pop n (rIdx + 2) (nid + 1) with
      | none => none
      | some (rest, r2, nid2) =>
        some (makeChildModel env mother father nid :: rest, r2, nid2)
    | some _ => none

/-- `_makeChildren`: breed `makeChildN` children, then
`childToMutate = np.random.choice(children)` (ValueError — `none` — when
`children` is empty) is mutated in place, and all children are appended
to the population. -/
def makeChildren (env : Env) (ga : GA) (st : GAState) : Option GAState :=
  match breedLoop env st.population ga.makeChildN st.rIdx st.nextId with
  | none => none
  | some (children, r2, nid2) =>
    match chooseIdx (env.rand r2) children.length with
    | none => none
    | some j =>
      let mutated := children.set j (mutateModel env (children.getD j default))
      some
        { st with
          population := st.population ++ mutated
          nextId := nid2
          rIdx := r2 + 1 }

/-- `k` consecutive fresh random models. -/
def freshRandomModels (env : Env) (startId k : Nat) : List Model :=
  (List.range k).map (fun i => makeRandomModel env (startId + i))

/-- `_makeRemainingRandomModels`: `while len(self.population) <
self.popSize: self.population.append(self.modelMaker.makeRandomModel())` —
appends one random model at a time, i.e. exactly
`popSize - len(population)` models (zero when the population is already at
or above `popSize`). -/
def makeRemainingRandomModels (env : Env) (ga : GA) (st : GAState) : GAState :=
  let k := ga.popSize - st.population.length
  { st with
    population := st.population ++ freshRandomModels env st.nextId k
    nextId := st.nextId + k }

/-- `_initializePop`: `popSize` fresh random models (only called on an
empty population). -/
def initializePop (env : Env) (ga : GA) (st : GAState) : GAState :=
  { st with
    population := freshRandomModels env st.nextId ga.popSize
    nextId := st.nextId + ga.popSize }

/-- Python `n == o` where `o` is an `Optional[int]`: `n == None` is
`False`. -/
def pyEqOpt (n : Nat) (o : Option Nat) : Bool :=
  match o with
  | none => false
  | some k => n == k

/-- The `stopCond` expression of `evolve`, as a function of the two
thresholds and the two loop counters. The first branch tests
`maxIters is not None and itersNoImprov is not None`; the local counter
`itersNoImprov` is an int (never `None`), so that branch is taken exactly
when `maxIters` is set. Otherwise the `elif maxIters is not None` branch
is skipped and `elif itersNoImprov is not None` (always true) applies. -/
def stopCondFun (maxIters maxItersNoImprov : Option Nat)
    (iters itersNoImprov : Nat) : Bool :=
  if maxIters.isSome then
    pyEqOpt iters maxIters || pyEqOpt itersNoImprov maxItersNoImprov
  else
    pyEqOpt itersNoImprov maxItersNoImprov

/-- The local state of `evolve`'s while loop: the controller state and
the local variables `iters`, `itersNoImprov`, and `stopCond`. In the
source, `stopCond` is assigned once before the loop and never reassigned
inside the loop body. -/
structure LoopState where
  ga : GAState
  iters : Nat
  itersNoImprov : Nat
  stopCond : Bool
deriving DecidableEq

/-- The state just before `evolve`'s while loop: `iters = 0`,
`itersNoImprov = 0`, and `stopCond` evaluated once at those values. -/
def initLoopState (maxIters maxItersNoImprov : Option Nat) (st : GAState) :
    LoopState :=
  ⟨st, 0, 0, stopCondFun maxIters maxItersNoImprov 0 0⟩

/-- The generation's best as computed by `_getBestModel` inside the loop
body: head of the freshly scored, descending-sorted population
(IndexError — `none` — on an empty population). -/
def genBest (env : Env) (ls : LoopState) : Option Model :=
  (sortPopDesc (scoreLoop env ls.ga.population).1).head?

/-- The improvement test of the loop body:
`self.bestModel is None or (bestModel.fitness > self.bestModel.fitness)`
(note `_scoreModelsInPop` leaves `self.bestModel` unchanged, so the value
read here is the one from before this generation). -/
def improvedFlag (prevBest : Option Model) (bm : Model) : Bool :=
  match prevBest with
  | none => true
  | some b => decide (fitKey b < fitKey bm)

/-- The controller state right after the best-tracking step of the loop
body: the population has been scored and sorted in place
(`_scoreModelsInPop` followed by the in-place sort of `_getBestModel`),
and `self.bestModel` has been replaced by the generation best exactly
when the improvement test fired. -/
def postBestState (env : Env) (ls : LoopState) (bm : Model) : GAState :=
  { ls.ga with
    population := sortPopDesc (scoreLoop env ls.ga.population).1
    bestModel :=
      if improvedFlag ls.ga.bestModel bm then some bm else ls.ga.bestModel }

/-- One iteration of `evolve`'s while loop: score, sort and read off the
generation best (`none` = IndexError on an empty population), update
`self.bestModel` and the `itersNoImprov` counter, increment `iters`, then
cull, breed and refill. `stopCond` is not touched — the source never
reassigns it inside the loop. -/
def evolveBody (env : Env) (ga : GA) (ls : LoopState) : Option LoopState :=
  match genBest env ls with
  | none => none
  | some bm =>
    ((killUnfit env ga (postBestState env ls bm)).bind
        (makeChildren env ga)).map
      (fun st5 =>
        ⟨makeRemainingRandomModels env ga st5, ls.iters + 1,
         if improvedFlag ls.ga.bestModel bm then 0 else ls.itersNoImprov + 1,
         ls.stopCond⟩)

/-- Outcome of running `evolve`'s while loop with bounded fuel: the loop
exited because its guard was satisfied (`done`), the fuel ran out with
the loop still going (`fuelOut`), or an exception was raised (`err`). -/
inductive LoopResult where
  | done (ls : LoopState)
  | fuelOut (ls : LoopState)
  | err
deriving DecidableEq

/-- Whether the loop exited normally through its guard. -/
def LoopResult.isDone : LoopResult → Bool
  | done _ => true
  | fuelOut _ => false
  | err => false

/-- `while not stopCond: <body>`, with fuel. The guard reads the
`stopCond` variable of the loop state, which the body never writes —
exactly as in the source, where `stopCond` is computed once before the
loop. -/
def runLoop (env : Env) (ga : GA) : Nat → LoopState → LoopResult
  | fuel, ls =>
    if ls.stopCond then .done ls
    else
      match fuel with
      | 0 => .fuelOut ls
      | fuel + 1 =>
        match evolveBody env ga ls with
        | none => .err
        | some ls2 => runLoop env ga fuel ls2

/-- `evolve(maxIters, maxItersNoImprov)`: asserts that at least one
threshold is supplied, lazily initializes an empty population, sets up
the loop locals and runs the while loop (with fuel). -/
def evolve (env : Env) (ga : GA) (maxIters maxItersNoImprov : Option Nat)
    (fuel : Nat) (st : GAState) : Option LoopResult :=
  if maxIters.isSome || maxItersNoImprov.isSome then
    let st0 := if st.population.length = 0 then initializePop env ga st else st
    some (runLoop env ga fuel (initLoopState maxIters maxItersNoImprov st0))
  else none

/-- `n` successive iterations of the loop body (the "first `n` completed
generations" of a run), independent of the loop guard. -/
def iterBody (env : Env) (ga : GA) : Nat → LoopState → Option LoopState
  | 0, ls => some ls
  | n + 1, ls => (iterBody env ga n ls).bind (evolveBody env ga)

/-- A concrete environment used to evaluate the embedding on concrete
runs: the factory hands out the fresh id as payload, children combine
parent payloads additively, mutation shifts the payload, fitness is the
payload itself, and the random stream is constantly zero. -/
def env0 : Env :=
  ⟨fun n => n, fun a b _ => a + b, fun p => p + 100, fun p => (p : Int),
   fun _ => 0⟩

/-- A concrete controller configuration: `popSize = 4`, `keepTopN = 1`,
`keepBtmN = 1`, `makeChildN = 2` (fraction fields unused by the loop). -/
def ga0 : GA := ⟨4, 0, 0, 0, 0, true, 1, 1, 2, 0⟩

/-- A concrete pre-loop state: four distinct unscored models. -/
def ls0 : LoopState :=
  ⟨⟨[⟨0, 0, none⟩, ⟨1, 1, none⟩, ⟨2, 2, none⟩, ⟨3, 3, none⟩], [], none, 4, 0⟩,
   0, 0, false⟩

/-- A concrete pre-loop state with a remembered best of fitness 9. -/
def ls1 : LoopState :=
  ⟨⟨[⟨0, 0, none⟩, ⟨1, 1, none⟩, ⟨2, 2, none⟩, ⟨3, 3, none⟩], [],
    some ⟨9, 9, some 9⟩, 4, 0⟩, 0, 0, false⟩

/-- `ga0` with `makeChildN = 0`. -/
def ga0z : GA := ⟨4, 0, 0, 0, 0, true, 1, 1, 0, 0⟩

/-! ### Basic lemmas about the embedded operations -/

theorem insertDesc_perm (m : Model) (l : List Model) :
    (insertDesc m l).Perm (m :: l) := by
  induction l with
  | nil => simp [insertDesc]
  | cons y ys ih =>
    simp only [insertDesc]
    split
    · exact (ih.cons y).trans (List.Perm.swap m y ys)
    · exact List.Perm.refl _

theorem sortPopDesc_perm (l : List Model) : (sortPopDesc l).Perm l := by
  induction l with
  | nil => exact List.Perm.refl _
  | cons x xs ih => exact (insertDesc_perm x (sortPopDesc xs)).trans (ih.cons x)

theorem length_sortPopDesc (l : List Model) :
    (sortPopDesc l).length = l.length :=
  (sortPopDesc_perm l).length_eq

theorem sampleWoR_length {α : Type} [Inhabited α] (rand : Nat → Nat) :
    ∀ (k : Nat) (pos : Nat) (l : List α) (s : List α),
      sampleWoR rand pos l k = some s → s.length = k := by
  intro k
  induction k with
  | zero =>
    intro pos l s h
    simp only [sampleWoR] at h
    cases h
    rfl
  | succ k ih =>
    intro pos l s h
    simp only [sampleWoR] at h
    split at h
    · rw [Option.map_eq_some'] at h
      obtain ⟨s', hs', rfl⟩ := h
      simp [ih _ _ _ hs']
    · exact absurd h (by simp)

theorem sampleWoR_mem {α : Type} [Inhabited α] (rand : Nat → Nat) :
    ∀ (k : Nat) (pos : Nat) (l : List α) (s : List α),
      sampleWoR rand pos l k = some s → ∀ a ∈ s, a ∈ l := by
  intro k
  induction k with
  | zero =>
    intro pos l s h
    simp only [sampleWoR] at h
    cases h
    intro a ha
    exact absurd ha (List.not_mem_nil a)
  | succ k ih =>
    intro pos l s h
    simp only [sampleWoR] at h
    split at h
    · rw [Option.map_eq_some'] at h
      obtain ⟨s', hs', rfl⟩ := h
      intro a ha
      rcases List.mem_cons.1 ha with rfl | ha'
      · exact List.get_mem _ _ _
      · exact (List.eraseIdx_sublist l _).mem (ih _ _ _ hs' a ha')
    · exact absurd h (by simp)

theorem sampleWoR_isSome {α : Type} [Inhabited α] (rand : Nat → Nat) :
    ∀ (k : Nat) (pos : Nat) (l : List α), k ≤ l.length →
      (sampleWoR rand pos l k).isSome = true := by
  intro k
  induction k with
  | zero => intro pos l _; simp [sampleWoR]
  | succ k ih =>
    intro pos l hk
    have hpos : 0 < l.length := Nat.lt_of_lt_of_le (Nat.succ_pos k) hk
    simp only [sampleWoR, dif_pos hpos]
    have hrec : k ≤ (l.eraseIdx (rand pos % l.length)).length := by
      rw [List.length_eraseIdx, if_pos (Nat.mod_lt _ hpos)]
      exact Nat.le_sub_one_of_lt hk
    obtain ⟨s, hs⟩ := Option.isSome_iff_exists.1 (ih (pos + 1) _ hrec)
    rw [hs]
    rfl

theorem sampleWoR_none {α : Type} [Inhabited α] (rand : Nat → Nat) :
    ∀ (k : Nat) (pos : Nat) (l : List α), l.length < k →
      sampleWoR rand pos l k = none := by
  intro k
  induction k with
  | zero => intro pos l h; exact absurd h (Nat.not_lt_zero _)
  | succ k ih =>
    intro pos l hk
    simp only [sampleWoR]
    split
    · rename_i hpos
      rw [ih _ _ (by rw [List.length_eraseIdx, if_pos (Nat.mod_lt _ hpos)]; omega)]
      rfl
    · rfl

theorem evolveBody_spec {env : Env} {ga : GA} {ls ls' : LoopState}
    (h : evolveBody env ga ls = some ls') :
    ∃ bm st4 st5,
      genBest env ls = some bm ∧
      killUnfit env ga (postBestState env ls bm) = some st4 ∧
      makeChildren env ga st4 = some st5 ∧
      ls' = ⟨makeRemainingRandomModels env ga st5, ls.iters + 1,
             if improvedFlag ls.ga.bestModel bm then 0
             else ls.itersNoImprov + 1,
             ls.stopCond⟩ := by
  unfold evolveBody at h
  cases hg : genBest env ls with
  | none => rw [hg] at h; exact absurd h (by simp)
  | some bm =>
    rw [hg] at h
    rw [Option.map_eq_some'] at h
    obtain ⟨st5, h5, hls⟩ := h
    rw [Option.bind_eq_some] at h5
    obtain ⟨st4, h4, h45⟩ := h5
    exact ⟨bm, st4, st5, rfl, h4, h45, hls.symm⟩

theorem evolveBody_stopCond {env : Env} {ga : GA} {ls ls' : LoopState}
    (h : evolveBody env ga ls = some ls') : ls'.stopCond = ls.stopCond := by
  obtain ⟨bm, st4, st5, -, -, -, rfl⟩ := evolveBody_spec h
  rfl

theorem runLoop_not_done {env : Env} {ga : GA} :
    ∀ (fuel : Nat) (ls : LoopState), ls.stopCond = false →
      (runLoop env ga fuel ls).isDone = false := by
  intro fuel
  induction fuel with
  | zero =>
    intro ls h
    simp [runLoop, h, LoopResult.isDone]
  | succ n ih =>
    intro ls h
    rw [runLoop, if_neg (by simp [h])]
    cases heb : evolveBody env ga ls with
    | none => rfl
    | some ls2 => exact ih ls2 ((evolveBody_stopCond heb).trans h)

/-! ### C1 -/

/-- C1: the claim states that with `maxGenerations = 5` and no
improvement cap the loop runs exactly 5 generations. In the source,
`stopCond` is computed once before the `while not stopCond` loop and is
never reassigned inside the loop body, so the guard stays at its initial
value `(0 == 5) or (0 == None)`, i.e. `False`: for every environment,
configuration, starting state and amount of fuel, the loop never exits
through its guard — `evolve` never halts (it either loops forever or
aborts on an exception), instead of stopping after 5 generations. -/
theorem c1_evolve_maxGenerations5_never_halts (env : Env) (ga : GA)
    (st : GAState) (fuel : Nat) :
    ∃ r, evolve env ga (some 5) none fuel st = some r ∧ r.isDone = false := by
  refine ⟨_, rfl, runLoop_not_done fuel _ rfl⟩

/-! ### Structure lemmas for the phases -/

theorem scoreLoop_fst_length (env : Env) (l : List Model) :
    ((scoreLoop env l).1).length = l.length := by
  induction l with
  | nil => rfl
  | cons m rest ih =>
    simp only [scoreLoop]
    split <;> simp [ih]

theorem freshRandomModels_length (env : Env) (startId k : Nat) :
    (freshRandomModels env startId k).length = k := by
  simp [freshRandomModels]

theorem cullSelect_spec {env : Env} {ga : GA} {rIdx : Nat} {pop : List Model}
    {keepMods unfitMods : List Model} {rIdx2 : Nat}
    (h : cullSelect env ga rIdx pop = some (keepMods, unfitMods, rIdx2)) :
    ga.keepTopN ≤ pop.length ∧
    ∃ btmKeepInds,
      sampleWoR env.rand rIdx (remainingIndsFor ga.keepTopN pop.length)
          ga.keepBtmN = some btmKeepInds ∧
      keepMods = pop.take ga.keepTopN ++
        btmKeepInds.map (fun i => pop.getD i default) ∧
      unfitMods = pop.filter (fun m => decide (m ∉ keepMods)) ∧
      rIdx2 = rIdx + ga.keepBtmN := by
  simp only [cullSelect] at h
  split at h
  · split at h
    · exact absurd h (by simp)
    · split at h
      · rename_i hle _ btmKeepInds hsw _
        cases h
        exact ⟨hle, btmKeepInds, hsw, rfl, rfl, rfl⟩
      · exact absurd h (by simp)
  · exact absurd h (by simp)

theorem killUnfit_spec {env : Env} {ga : GA} {st st' : GAState}
    (h : killUnfit env ga st = some st') :
    ∃ keepMods unfitMods rIdx2,
      cullSelect env ga st.rIdx (sortPopDesc st.population) =
        some (keepMods, unfitMods, rIdx2) ∧
      st' = { st with
              population := keepMods
              graveyard :=
                if ga.keepGraveyard then st.graveyard ++ unfitMods
                else st.graveyard
              rIdx := rIdx2 } := by
  simp only [killUnfit] at h
  split at h
  · exact absurd h (by simp)
  · rename_i keepMods unfitMods rIdx2 hcs
    cases h
    exact ⟨keepMods, unfitMods, rIdx2, hcs, rfl⟩

theorem killUnfit_population_length {env : Env} {ga : GA} {st st' : GAState}
    (h : killUnfit env ga st = some st') :
    st'.population.length = ga.keepTopN + ga.keepBtmN := by
  obtain ⟨keepMods, unfitMods, rIdx2, hcs, rfl⟩ := killUnfit_spec h
  obtain ⟨hle, btmKeepInds, hsw, hkeep, -, -⟩ := cullSelect_spec hcs
  simp only [hkeep, List.length_append, List.length_take, List.length_map]
  rw [sampleWoR_length env.rand _ _ _ _ hsw]
  omega

theorem breedLoop_length (env : Env) (pop : List Model) :
    ∀ (n rIdx nid : Nat) (out : List Model × Nat × Nat),
      breedLoop env pop n rIdx nid = some out → out.1.length = n := by
  intro n
  induction n with
  | zero =>
    intro rIdx nid out h
    simp only [breedLoop] at h
    cases h
    rfl
  | succ n ih =>
    intro rIdx nid out h
    simp only [breedLoop] at h
    split at h
    · exact absurd h (by simp)
    · split at h
      · exact absurd h (by simp)
      · rename_i rest r2 nid2 hrec
        cases h
        simp [ih _ _ _ hrec]
    · exact absurd h (by simp)

theorem makeChildren_spec {env : Env} {ga : GA} {st st' : GAState}
    (h : makeChildren env ga st = some st') :
    ∃ children r2 nid2 j,
      breedLoop env st.population ga.makeChildN st.rIdx st.nextId =
        some (children, r2, nid2) ∧
      chooseIdx (env.rand r2) children.length = some j ∧
      st' = { st with
              population :=
                st.population ++
                  children.set j (mutateModel env (children.getD j default))
              nextId := nid2
              rIdx := r2 + 1 } := by
  simp only [makeChildren] at h
  split at h
  · exact absurd h (by simp)
  · rename_i children r2 nid2 hbl
    split at h
    · exact absurd h (by simp)
    · rename_i j hci
      cases h
      exact ⟨children, r2, nid2, j, hbl, hci, rfl⟩

theorem makeChildren_population_length {env : Env} {ga : GA} {st st' : GAState}
    (h : makeChildren env ga st = some st') :
    st'.population.length = st.population.length + ga.makeChildN := by
  obtain ⟨children, r2, nid2, j, hbl, hci, rfl⟩ := makeChildren_spec h
  simp only [List.length_append, List.length_set]
  rw [breedLoop_length env _ _ _ _ _ hbl]

theorem makeRemaining_length (env : Env) (ga : GA) (st : GAState) :
    (makeRemainingRandomModels env ga st).population.length =
      max ga.popSize st.population.length := by
  simp only [makeRemainingRandomModels, List.length_append,
    freshRandomModels_length]
  omega

/-! ### C2 -/

/-- C2: for every configuration with
`keepTopN + keepBtmN + makeChildN ≤ popSize`, every completed loop
iteration ends with a population of size exactly `popSize`; moreover the
refill phase appends exactly `popSize - len(population)` fresh random
candidates, which is zero when the population is already at or above
`popSize`. -/
theorem c2_population_size_invariant :
    (∀ (env : Env) (ga : GA) (ls ls' : LoopState),
        ga.keepTopN + ga.keepBtmN + ga.makeChildN ≤ ga.popSize →
        evolveBody env ga ls = some ls' →
        ls'.ga.population.length = ga.popSize)
    ∧ (∀ (env : Env) (ga : GA) (st : GAState),
        (makeRemainingRandomModels env ga st).population =
          st.population ++
            freshRandomModels env st.nextId
              (ga.popSize - st.population.length))
    ∧ (∀ (env : Env) (ga : GA) (st : GAState),
        ga.popSize ≤ st.population.length →
        (makeRemainingRandomModels env ga st).population = st.population) := by
  refine ⟨?_, fun env ga st => rfl, ?_⟩
  · intro env ga ls ls' hcap h
    obtain ⟨bm, st4, st5, -, h4, h45, rfl⟩ := evolveBody_spec h
    have l4 := killUnfit_population_length h4
    have l5 := makeChildren_population_length h45
    have l6 := makeRemaining_length env ga st5
    simp only [l6, l5, l4]
    omega
  · intro env ga st hle
    simp only [makeRemainingRandomModels, Nat.sub_eq_zero_of_le hle]
    simp [freshRandomModels]

/-- C2 witness: on the concrete run `env0`/`ga0`/`ls0`, whose counts sum
to `1 + 1 + 2 = 4 = popSize`, the completed generation ends with exactly
4 models. -/
theorem c2_witness :
    ((evolveBody env0 ga0 ls0).getD ls0).ga.population.length = ga0.popSize :=
  c2_population_size_invariant.1 env0 ga0 ls0 _ (by decide) (by decide)

/-! ### C3 -/

theorem mem_remainingIndsFor {i t n : Nat} :
    i ∈ remainingIndsFor t n ↔ i < n ∧ ¬ i < t := by
  simp [remainingIndsFor, List.mem_range]

/-- C3: whenever `_killUnfit` completes, the bottom-keep indices were
drawn from the complement of the top-keep indices `range keepTopN` (so
the two index sets are disjoint), exactly `keepBtmN` of them were drawn,
and the post-cull population is exactly the concatenation of the
top-keep models and the bottom-keep models — of size
`keepTopN + keepBtmN`. -/
theorem c3_cull_disjoint_union (env : Env) (ga : GA) (st st' : GAState)
    (h : killUnfit env ga st = some st') :
    ∃ btmKeepInds : List Nat,
      sampleWoR env.rand st.rIdx
          (remainingIndsFor ga.keepTopN (sortPopDesc st.population).length)
          ga.keepBtmN = some btmKeepInds ∧
      btmKeepInds.length = ga.keepBtmN ∧
      (∀ i ∈ btmKeepInds,
        ga.keepTopN ≤ i ∧ i < (sortPopDesc st.population).length) ∧
      List.Disjoint (List.range ga.keepTopN) btmKeepInds ∧
      st'.population =
        (sortPopDesc st.population).take ga.keepTopN ++
          btmKeepInds.map
            (fun i => (sortPopDesc st.population).getD i default) ∧
      st'.population.length = ga.keepTopN + ga.keepBtmN := by
  have hlen := killUnfit_population_length h
  obtain ⟨keepMods, unfitMods, rIdx2, hcs, rfl⟩ := killUnfit_spec h
  obtain ⟨hle, btmKeepInds, hsw, hkeep, -, -⟩ := cullSelect_spec hcs
  have hmem : ∀ i ∈ btmKeepInds,
      ga.keepTopN ≤ i ∧ i < (sortPopDesc st.population).length := by
    intro i hi
    have := mem_remainingIndsFor.1 (sampleWoR_mem env.rand _ _ _ _ hsw i hi)
    omega
  refine ⟨btmKeepInds, hsw, sampleWoR_length env.rand _ _ _ _ hsw, hmem,
    ?_, hkeep, hlen⟩
  intro i hir hib
  rw [List.mem_range] at hir
  exact absurd hir (Nat.not_lt.2 (hmem i hib).1)

/-- C3 witness: on the concrete cull of `env0`/`ga0`, the post-cull
population has size `keepTopN + keepBtmN = 2`. -/
theorem c3_witness :
    ((killUnfit env0 ga0 ls0.ga).getD ls0.ga).population.length =
      ga0.keepTopN + ga0.keepBtmN := by
  obtain ⟨btm, -, -, -, -, -, hlen⟩ :=
    c3_cull_disjoint_union env0 ga0 ls0.ga
      ((killUnfit env0 ga0 ls0.ga).getD ls0.ga) (by decide)
  exact hlen

/-! ### C4 -/

theorem killUnfit_bestModel {env : Env} {ga : GA} {st st' : GAState}
    (h : killUnfit env ga st = some st') : st'.bestModel = st.bestModel := by
  obtain ⟨keepMods, unfitMods, rIdx2, -, rfl⟩ := killUnfit_spec h
  rfl

theorem makeChildren_bestModel {env : Env} {ga : GA} {st st' : GAState}
    (h : makeChildren env ga st = some st') : st'.bestModel = st.bestModel := by
  obtain ⟨children, r2, nid2, j, -, -, rfl⟩ := makeChildren_spec h
  rfl

theorem evolveBody_bestModel {env : Env} {ga : GA} {ls ls' : LoopState} {bm : Model}
    (h : evolveBody env ga ls = some ls') (hg : genBest env ls = some bm) :
    ls'.ga.bestModel =
      (if improvedFlag ls.ga.bestModel bm then some bm else ls.ga.bestModel) := by
  obtain ⟨bm2, st4, st5, hg2, h4, h45, rfl⟩ := evolveBody_spec h
  rw [hg] at hg2
  cases hg2
  calc (makeRemainingRandomModels env ga st5).bestModel
      = st5.bestModel := rfl
    _ = st4.bestModel := makeChildren_bestModel h45
    _ = (postBestState env ls bm).bestModel := killUnfit_bestModel h4
    _ = _ := rfl

/-- C4: (a) per generation, the remembered best is replaced by the
generation best exactly when the latter's fitness strictly exceeds the
remembered one's — on replacement the no-improvement counter resets to
zero, otherwise the remembered best is kept unchanged and the counter
increments; (b) consequently, across any number of completed
generations the remembered best's fitness never decreases. -/
theorem c4_best_monotone :
    (∀ (env : Env) (ga : GA) (ls ls' : LoopState) (bm : Model),
        evolveBody env ga ls = some ls' →
        genBest env ls = some bm →
        (ls.ga.bestModel = none →
          ls'.ga.bestModel = some bm ∧ ls'.itersNoImprov = 0) ∧
        (∀ b, ls.ga.bestModel = some b →
          (fitKey b < fitKey bm →
            ls'.ga.bestModel = some bm ∧ ls'.itersNoImprov = 0) ∧
          (¬ fitKey b < fitKey bm →
            ls'.ga.bestModel = some b ∧
            ls'.itersNoImprov = ls.itersNoImprov + 1)))
    ∧ (∀ (env : Env) (ga : GA) (n : Nat) (ls ls' : LoopState) (b : Model),
        iterBody env ga n ls = some ls' →
        ls.ga.bestModel = some b →
        ∃ b', ls'.ga.bestModel = some b' ∧ fitKey b ≤ fitKey b') := by
  have stepMono : ∀ (env : Env) (ga : GA) (ls ls' : LoopState) (b : Model),
      evolveBody env ga ls = some ls' → ls.ga.bestModel = some b →
      ∃ b', ls'.ga.bestModel = some b' ∧ fitKey b ≤ fitKey b' := by
    intro env ga ls ls' b h hb
    obtain ⟨bm, st4, st5, hg, -, -, -⟩ := evolveBody_spec h
    have hbm := evolveBody_bestModel h hg
    rw [hb] at hbm
    simp only [improvedFlag, decide_eq_true_eq] at hbm
    by_cases himp : fitKey b < fitKey bm
    · rw [hbm, if_pos himp]
      exact ⟨bm, rfl, le_of_lt himp⟩
    · rw [hbm, if_neg himp]
      exact ⟨b, rfl, le_refl _⟩
  constructor
  · intro env ga ls ls' bm h hg
    have hbm := evolveBody_bestModel h hg
    obtain ⟨bm2, st4, st5, hg2, h4, h45, rfl⟩ := evolveBody_spec h
    rw [hg] at hg2
    cases hg2
    constructor
    · intro hnone
      rw [hnone] at hbm
      simp only [improvedFlag] at hbm
      exact ⟨hbm, by simp [improvedFlag, hnone]⟩
    · intro b hb
      rw [hb] at hbm
      simp only [improvedFlag, decide_eq_true_eq] at hbm
      constructor
      · intro hlt
        rw [if_pos hlt] at hbm
        refine ⟨hbm, ?_⟩
        simp [improvedFlag, hb, hlt]
      · intro hnlt
        rw [if_neg hnlt] at hbm
        refine ⟨hbm, ?_⟩
        simp [improvedFlag, hb, hnlt]
  · intro env ga n
    induction n with
    | zero =>
      intro ls ls' b h hb
      cases h
      exact ⟨b, hb, le_refl _⟩
    | succ n ih =>
      intro ls ls' b h hb
      simp only [iterBody, Option.bind_eq_some] at h
      obtain ⟨lsMid, hmid, hstep⟩ := h
      obtain ⟨b1, hb1, hle1⟩ := ih ls lsMid b hmid hb
      obtain ⟨b2, hb2, hle2⟩ := stepMono env ga lsMid ls' b1 hstep hb1
      exact ⟨b2, hb2, le_trans hle1 hle2⟩

/-- C4 witness: on the concrete run `env0`/`ga0`/`ls1`, the generation
best (fitness 3) does not strictly exceed the remembered best (fitness
9), so the remembered best is kept and the no-improvement counter
increments from 0 to 1. -/
theorem c4_witness :
    ((evolveBody env0 ga0 ls1).getD ls1).ga.bestModel = some ⟨9, 9, some 9⟩ ∧
    ((evolveBody env0 ga0 ls1).getD ls1).itersNoImprov = 1 := by
  have h := (c4_best_monotone.1 env0 ga0 ls1
      ((evolveBody env0 ga0 ls1).getD ls1)
      ⟨3, 3, some 3⟩ (by decide) (by decide)).2 ⟨9, 9, some 9⟩ rfl
  exact h.2 (by decide)

/-! ### C5 -/

/-- C5: the evaluator call log of one scoring pass is exactly the
sublist of models whose fitness is unset — each such model is passed
exactly once (for populations of distinct objects) and gets the result
stored in its fitness slot; a model already holding a fitness value is
never in the call log of any scoring pass (in this or any later
generation), and after the pass every model in the population holds a
fitness value. -/
theorem scoreLoop_snd_eq_filter (env : Env) (pop : List Model) :
    (scoreLoop env pop).2 = pop.filter (fun m => m.fitness.isNone) := by
  induction pop with
  | nil => rfl
  | cons m rest ih =>
    simp only [scoreLoop, List.filter_cons]
    split <;> simp_all

theorem scoreLoop_fst_eq_map (env : Env) (pop : List Model) :
    (scoreLoop env pop).1 = pop.map (fun m =>
      if m.fitness.isNone then { m with fitness := some (scoreModel env m) }
      else m) := by
  induction pop with
  | nil => rfl
  | cons m rest ih =>
    simp only [scoreLoop, List.map_cons]
    split <;> simp_all

theorem c5_score_once (env : Env) (pop : List Model) :
    (scoreLoop env pop).2 = pop.filter (fun m => m.fitness.isNone) ∧
    (scoreLoop env pop).1 = pop.map (fun m =>
      if m.fitness.isNone then { m with fitness := some (scoreModel env m) }
      else m) ∧
    (∀ m ∈ pop, m.fitness.isSome = true → m ∉ (scoreLoop env pop).2) ∧
    (∀ m ∈ (scoreLoop env pop).1, m.fitness.isSome = true) ∧
    ((pop.map Model.id).Nodup → ∀ m ∈ pop, m.fitness.isNone = true →
      List.count m (scoreLoop env pop).2 = 1) := by
  have h2 := scoreLoop_snd_eq_filter env pop
  have h1 := scoreLoop_fst_eq_map env pop
  refine ⟨h2, h1, ?_, ?_, ?_⟩
  · intro m _ hs hmem
    rw [h2, List.mem_filter] at hmem
    rw [Option.isNone_iff_eq_none.1 hmem.2] at hs
    exact absurd hs (by simp)
  · intro m2 hm2
    rw [h1, List.mem_map] at hm2
    obtain ⟨m, -, rfl⟩ := hm2
    by_cases hn : m.fitness.isNone = true
    · simp [hn]
    · rw [if_neg hn]
      cases hf : m.fitness with
      | none => rw [hf] at hn; exact absurd rfl hn
      | some v => simp [hf]
  · intro hnd m hm hisn
    rw [h2, @List.count_filter Model _ _
      (fun m2 : Model => m2.fitness.isNone) m pop hisn]
    exact List.count_eq_one_of_mem (hnd.of_map Model.id) hm

/-- C5 witness: scoring the two-model population in which only the
second model is unscored passes that model to the evaluator exactly
once. -/
theorem c5_witness :
    List.count (⟨1, 1, none⟩ : Model)
      (scoreLoop env0 [⟨0, 0, some 5⟩, ⟨1, 1, none⟩]).2 = 1 :=
  (c5_score_once env0 [⟨0, 0, some 5⟩, ⟨1, 1, none⟩]).2.2.2.2
    (by decide) _ (by decide) (by decide)

/-! ### C6 -/

theorem chooseIdx_lt {r n j : Nat} (h : chooseIdx r n = some j) : j < n := by
  simp only [chooseIdx] at h
  split at h
  · exact absurd h (by simp)
  · rename_i hn
    cases h
    exact Nat.mod_lt _ (Nat.pos_of_ne_zero hn)

/-- C6: whenever `_makeChildren` completes, the breeding loop produced
exactly `makeChildN` children, exactly one position `j` of that batch
(chosen by a random draw over the batch) was replaced by its in-place
mutation, and the whole batch was appended to the population; the result
is unchanged under arbitrary replacement of `mutateFrac` and `mutateN`
in the configuration. -/
theorem c6_single_mutation (env : Env) (ga : GA) (st st' : GAState)
    (h : makeChildren env ga st = some st') :
    (∃ children r2 nid2 j,
      breedLoop env st.population ga.makeChildN st.rIdx st.nextId =
        some (children, r2, nid2) ∧
      children.length = ga.makeChildN ∧
      j < children.length ∧
      st'.population = st.population ++
        children.set j (mutateModel env (children.getD j default))) ∧
    (∀ (q : ℚ) (n : Nat),
      makeChildren env { ga with mutateFrac := q, mutateN := n } st =
        some st') := by
  constructor
  · obtain ⟨children, r2, nid2, j, hbl, hci, rfl⟩ := makeChildren_spec h
    exact ⟨children, r2, nid2, j, hbl, breedLoop_length env _ _ _ _ _ hbl,
      chooseIdx_lt hci, rfl⟩
  · intro q n
    exact h

/-- C6 witness: on the concrete run, changing `mutateFrac` and `mutateN`
does not change the breeding outcome. -/
theorem c6_witness :
    makeChildren env0 { ga0 with mutateFrac := 1, mutateN := 3 } ls0.ga =
      some ((makeChildren env0 ga0 ls0.ga).getD ls0.ga) :=
  (c6_single_mutation env0 ga0 ls0.ga
    ((makeChildren env0 ga0 ls0.ga).getD ls0.ga) (by decide)).2 1 3

/-! ### C7 -/

theorem makeChildren_graveyard {env : Env} {ga : GA} {st st' : GAState}
    (h : makeChildren env ga st = some st') : st'.graveyard = st.graveyard := by
  obtain ⟨children, r2, nid2, j, -, -, rfl⟩ := makeChildren_spec h
  rfl

theorem evolveBody_graveyard {env : Env} {ga : GA} {ls ls' : LoopState}
    (hg : ga.keepGraveyard = true) (h : evolveBody env ga ls = some ls') :
    ∃ d stA stB, killUnfit env ga stA = some stB ∧
      stB.graveyard = stA.graveyard ++ d ∧
      ls'.ga.graveyard = ls.ga.graveyard ++ d := by
  obtain ⟨bm, st4, st5, hgb, h4, h45, rfl⟩ := evolveBody_spec h
  obtain ⟨keepMods, unfitMods, rIdx2, hcs, hst4⟩ := killUnfit_spec h4
  refine ⟨unfitMods, postBestState env ls bm, st4, h4, ?_, ?_⟩
  · rw [hst4]
    simp [hg]
  · have hm : (makeRemainingRandomModels env ga st5).graveyard =
        st5.graveyard := rfl
    rw [hm, makeChildren_graveyard h45, hst4]
    simp [hg]
    rfl

/-- C7: per culling, the graveyard (when enabled) grows by appending
exactly the models filtered out as not kept (`unfitMods`); across `n`
completed generations it therefore equals the initial graveyard followed
by the concatenation of the `n` per-culling discard batches — nothing
deduplicated or pruned, so its length is the sum of the per-culling
discard counts. -/
theorem c7_graveyard :
    (∀ (env : Env) (ga : GA) (st st' : GAState),
        ga.keepGraveyard = true →
        killUnfit env ga st = some st' →
        ∃ keepMods unfitMods,
          cullSelect env ga st.rIdx (sortPopDesc st.population) =
            some (keepMods, unfitMods, st.rIdx + ga.keepBtmN) ∧
          unfitMods = (sortPopDesc st.population).filter
            (fun m => decide (m ∉ keepMods)) ∧
          st'.graveyard = st.graveyard ++ unfitMods)
    ∧ (∀ (env : Env) (ga : GA) (n : Nat) (ls ls' : LoopState),
        ga.keepGraveyard = true →
        iterBody env ga n ls = some ls' →
        ∃ rems : List (List Model),
          rems.length = n ∧
          ls'.ga.graveyard = ls.ga.graveyard ++ rems.flatten ∧
          ∀ r ∈ rems, ∃ stA stB, killUnfit env ga stA = some stB ∧
            stB.graveyard = stA.graveyard ++ r) := by
  constructor
  · intro env ga st st' hg h
    obtain ⟨keepMods, unfitMods, rIdx2, hcs, rfl⟩ := killUnfit_spec h
    obtain ⟨-, btm, -, -, hunfit, hr⟩ := cullSelect_spec hcs
    subst hr
    exact ⟨keepMods, unfitMods, hcs, hunfit, by simp [hg]⟩
  · intro env ga n
    induction n with
    | zero =>
      intro ls ls' hg h
      cases h
      exact ⟨[], rfl, by simp, by simp⟩
    | succ n ih =>
      intro ls ls' hg h
      simp only [iterBody, Option.bind_eq_some] at h
      obtain ⟨lsMid, hmid, hstep⟩ := h
      obtain ⟨rems, hlen, hgrave, hprop⟩ := ih ls lsMid hg hmid
      obtain ⟨d, stA, stB, hk, hd, hsg⟩ := evolveBody_graveyard hg hstep
      refine ⟨rems ++ [d], by simp [hlen], ?_, ?_⟩
      · rw [hsg, hgrave]
        simp [List.append_assoc]
      · intro r hr
        rcases List.mem_append.1 hr with hr1 | hr2
        · exact hprop r hr1
        · rw [List.mem_singleton] at hr2
          subst hr2
          exact ⟨stA, stB, hk, hd⟩

/-- C7 witness: on the concrete cull of `env0`/`ga0` (graveyard
enabled), the graveyard after the cull is the old graveyard followed by
the discarded batch of that cull. -/
theorem c7_witness :
    ((killUnfit env0 ga0 ls0.ga).getD ls0.ga).graveyard =
      ls0.ga.graveyard ++
        ((cullSelect env0 ga0 ls0.ga.rIdx
            (sortPopDesc ls0.ga.population)).getD ([], [], 0)).2.1 := by
  obtain ⟨keepMods, unfitMods, hcs, -, hgr⟩ :=
    c7_graveyard.1 env0 ga0 ls0.ga
      ((killUnfit env0 ga0 ls0.ga).getD ls0.ga) rfl (by decide)
  rw [hgr, hcs]
  rfl

/-! ### C8 -/

/-- C8: construction fails (the assertion) exactly when
`keepTopFrac + keepBtmFrac + makeChildFrac > 1`; `mutateFrac` is not part
of the constraint — replacing it by any value never changes whether
construction succeeds. -/
theorem c8_init_assert (popSize : Nat) (ktf kbf mcf mf : ℚ) (kg : Bool) :
    (mkGA popSize ktf kbf mcf mf kg = none ↔ 1 < ktf + kbf + mcf) ∧
    (∀ mf2 : ℚ, (mkGA popSize ktf kbf mcf mf2 kg).isSome =
      (mkGA popSize ktf kbf mcf mf kg).isSome) := by
  constructor
  · by_cases hle : ktf + kbf + mcf ≤ 1
    · simp [mkGA, hle, not_lt.2 hle]
    · simp [mkGA, hle, lt_of_not_le hle]
  · intro mf2
    by_cases hle : ktf + kbf + mcf ≤ 1 <;> simp [mkGA, hle]

/-! ### C9 -/

/-- C9: with `makeChildN = 0` (which is what construction derives
whenever `makeChildFrac * popSize < 1`), the breeding phase always
raises — the mutation target is drawn from an empty batch of children —
so no loop iteration can complete in any state. -/
theorem c9_zero_children_error :
    (∀ (env : Env) (ga : GA), ga.makeChildN = 0 →
      (∀ st, makeChildren env ga st = none) ∧
      (∀ ls, evolveBody env ga ls = none))
    ∧ (∀ (popSize : Nat) (ktf kbf mcf mf : ℚ) (kg : Bool) (ga2 : GA),
        mkGA popSize ktf kbf mcf mf kg = some ga2 →
        mcf * popSize < 1 → ga2.makeChildN = 0) := by
  constructor
  · intro env ga hmc
    have hm : ∀ st, makeChildren env ga st = none := by
      intro st
      simp [makeChildren, hmc, breedLoop, chooseIdx]
    refine ⟨hm, ?_⟩
    intro ls
    cases heb : evolveBody env ga ls with
    | none => rfl
    | some ls2 =>
      obtain ⟨bm, st4, st5, -, -, h45, -⟩ := evolveBody_spec heb
      rw [hm st4] at h45
      exact absurd h45 (by simp)
  · intro popSize ktf kbf mcf mf kg ga2 h hlt
    simp only [mkGA] at h
    split at h
    · cases h
      show (⌊mcf * (popSize : ℚ)⌋).toNat = 0
      rw [Int.toNat_eq_zero]
      have hfl : ⌊mcf * (popSize : ℚ)⌋ < 1 := by
        rw [Int.floor_lt]
        exact_mod_cast hlt
      omega
    · exact absurd h (by simp)

/-- C9 witness: with the concrete zero-children configuration `ga0z`,
breeding fails on the concrete population. -/
theorem c9_witness : makeChildren env0 ga0z ls0.ga = none :=
  (c9_zero_children_error.1 env0 ga0z rfl).1 ls0.ga

/-! ### C10 -/

theorem breedLoop_none_of_small (env : Env) (pop : List Model)
    (hlen : pop.length < 2) :
    ∀ (n : Nat), 1 ≤ n → ∀ (rIdx nid : Nat),
      breedLoop env pop n rIdx nid = none := by
  intro n hn rIdx nid
  cases n with
  | zero => omega
  | succ m =>
    simp only [breedLoop]
    rw [sampleWoR_none env.rand 2 rIdx pop hlen]

theorem breedLoop_some_of_two (env : Env) (pop : List Model)
    (hlen : 2 ≤ pop.length) :
    ∀ (n rIdx nid : Nat), ∃ out, breedLoop env pop n rIdx nid = some out := by
  intro n
  induction n with
  | zero => intro rIdx nid; exact ⟨_, rfl⟩
  | succ m ih =>
    intro rIdx nid
    obtain ⟨s, hs⟩ :=
      Option.isSome_iff_exists.1 (sampleWoR_isSome env.rand 2 rIdx pop hlen)
    have hsl := sampleWoR_length env.rand 2 rIdx pop s hs
    cases s with
    | nil => simp at hsl
    | cons a s1 =>
      cases s1 with
      | nil => simp at hsl
      | cons b s2 =>
        obtain ⟨out, hout⟩ := ih (rIdx + 2) (nid + 1)
        obtain ⟨rest, r2, nid2⟩ := out
        refine ⟨(makeChildModel env a b nid :: rest, r2, nid2), ?_⟩
        simp only [breedLoop, hs, hout]

/-- C10: after a completed cull the population has exactly
`keepTopN + keepBtmN` members, so when `makeChildN ≥ 1` and
`keepTopN + keepBtmN < 2` the first two-parent draw of the breeding
phase raises (and `_makeChildren` fails), while under
`keepTopN + keepBtmN ≥ 2` the parent-selection error branch is
unreachable: the breeding loop always succeeds. -/
theorem c10_two_parent_requirement (env : Env) (ga : GA) (st st' : GAState)
    (h : killUnfit env ga st = some st') :
    (1 ≤ ga.makeChildN → ga.keepTopN + ga.keepBtmN < 2 →
      breedLoop env st'.population ga.makeChildN st'.rIdx st'.nextId = none ∧
      makeChildren env ga st' = none) ∧
    (2 ≤ ga.keepTopN + ga.keepBtmN →
      ∃ out, breedLoop env st'.population ga.makeChildN st'.rIdx st'.nextId =
        some out) := by
  have hlen := killUnfit_population_length h
  constructor
  · intro hmc hsmall
    have hnone := breedLoop_none_of_small env st'.population
      (by omega) ga.makeChildN hmc st'.rIdx st'.nextId
    refine ⟨hnone, ?_⟩
    simp [makeChildren, hnone]
  · intro hbig
    exact breedLoop_some_of_two env st'.population (by omega)
      ga.makeChildN st'.rIdx st'.nextId

/-- C10 witness: on the concrete cull of `env0`/`ga0`
(`keepTopN + keepBtmN = 2`), the breeding loop succeeds. -/
theorem c10_witness :
    ∃ out, breedLoop env0
        ((killUnfit env0 ga0 ls0.ga).getD ls0.ga).population ga0.makeChildN
        ((killUnfit env0 ga0 ls0.ga).getD ls0.ga).rIdx
        ((killUnfit env0 ga0 ls0.ga).getD ls0.ga).nextId = some out :=
  (c10_two_parent_requirement env0 ga0 ls0.ga
    ((killUnfit env0 ga0 ls0.ga).getD ls0.ga) (by decide)).2 (by decide)

end GeneticAlgo
